import Mathlib

/-!
Verification development for `whale_watcher.py` (fullyclips/whalewatch).

The Python source is shallowly embedded: pure fragments become Lean
functions, Python floats become exact rationals (`ℚ`), Python ints become
`ℤ`/`ℕ`, fallible code returns `Option`/`Except`, and stateful code is
explicit state passing.  Exceptions that the source catches and converts
to `None` are modelled as `Option.none`; exceptions that escape to the
enclosing reconnect loop are modelled as `Except.error`.
-/

/- ---------------------------------------------------------------------
   Small string helpers.  `lowerStr` models Python `str.lower()` on the
   ASCII address strings this program handles; `startsWith0x` models
   `s.startswith("0x")`.  Both recurse structurally over the character
   data so that concrete instances evaluate.
   --------------------------------------------------------------------- -/

/-- `str.lower()` for ASCII strings (hex / base58 addresses). -/
def lowerStr (s : String) : String := ⟨s.data.map Char.toLower⟩

/-- `s.startswith("0x")`. -/
def startsWith0x (s : String) : Bool :=
  match s.data with
  | '0' :: 'x' :: _ => true
  | _ => false

/- ---------------------------------------------------------------------
   Association-list helpers modelling Python `dict` access.
   `alGet m k` models `m.get(k, [])`; `alSet m k v` models
   `m.setdefault(k, []); m[k] = v` (an existing key keeps its position,
   a new key is appended at the end).
   --------------------------------------------------------------------- -/

/-- Lookup in a counters dict, defaulting to the empty list. -/
def alGet : List (String × List ℚ) → String → List ℚ
  | [], _ => []
  | p :: rest, k => if p.1 == k then p.2 else alGet rest k

/-- Update/insert in a counters dict, mirroring `setdefault` followed by
item assignment. -/
def alSet : List (String × List ℚ) → String → List ℚ → List (String × List ℚ)
  | [], k, v => [(k, v)]
  | p :: rest, k, v => if p.1 == k then (k, v) :: rest else p :: alSet rest k v

/- ---------------------------------------------------------------------
   Hex decoding, modelling `bytes.fromhex` on the `0x`-stripped input
   (whale_watcher.py line 313).  A malformed hex string (odd length or a
   non-hex character) raises in Python; the caller catches this, so the
   model returns `none` there.
   --------------------------------------------------------------------- -/

/-- Value of one hexadecimal digit, `none` for a non-hex character. -/
def hexDigitVal? (c : Char) : Option ℕ :=
  if '0' ≤ c ∧ c ≤ '9' then some (c.toNat - '0'.toNat)
  else if 'a' ≤ c ∧ c ≤ 'f' then some (c.toNat - 'a'.toNat + 10)
  else if 'A' ≤ c ∧ c ≤ 'F' then some (c.toNat - 'A'.toNat + 10)
  else none

/-- Decode a character list as hex byte pairs. -/
def hexPairsToBytes? : List Char → Option (List ℕ)
  | [] => some []
  | [_] => none
  | c1 :: c2 :: rest =>
    match hexDigitVal? c1, hexDigitVal? c2, hexPairsToBytes? rest with
    | some h, some l, some bs => some ((16 * h + l) :: bs)
    | _, _, _ => none

/- ---------------------------------------------------------------------
   Minimal ABI decoding modelling `eth_abi.decode` for the three fixed
   argument layouts used by `parse_uniswap_call` (lines 66-101).
   Decoded `address` components are modelled as their 20-byte sequences
   (the checksum re-encoding in the source is display formatting only).
   --------------------------------------------------------------------- -/

/-- Big-endian byte-list to natural number. -/
def beBytesToNat (bs : List ℕ) : ℕ := bs.foldl (fun a b => 256 * a + b) 0

/-- The 32-byte word at byte offset `off`, `none` when the buffer is too
short (eth-abi raises `InsufficientDataBytes`, caught by the source). -/
def wordAt (data : List ℕ) (off : ℕ) : Option (List ℕ) :=
  if off + 32 ≤ data.length then some ((data.drop off).take 32) else none

/-- Decode a `uintN` head word.  Strict eth-abi padding validation
(rejecting nonzero high-order bytes for narrow types) is not modelled:
lenient eth-abi v2/v3 semantics. -/
def decodeUintAt (data : List ℕ) (off : ℕ) : Option ℕ :=
  (wordAt data off).map beBytesToNat

/-- Decode an `address` head word (the low 20 bytes of the word; the
strict padding check of eth-abi v4+ is not modelled). -/
def decodeAddressAt (data : List ℕ) (off : ℕ) : Option (List ℕ) :=
  (wordAt data off).map (List.drop 12)

/-- Decode a dynamic `address[]` located at byte offset `off`: a length
word followed by that many address words. -/
def decodeAddressArrayAt (data : List ℕ) (off : ℕ) : Option (List (List ℕ)) :=
  match decodeUintAt data off with
  | none => none
  | some n => (List.range n).mapM (fun j => decodeAddressAt data (off + 32 + 32 * j))

/-- 4-byte selector of `swapExactETHForTokens(uint256,address[],address,uint256)`
(the value of `_W3.keccak(...)[:4]`, whale_watcher.py lines 56-58). -/
def SIG_V2_SWAP_EXACT_ETH_FOR_TOKENS : List ℕ := [0x7f, 0xf3, 0x6a, 0xb5]

/-- 4-byte selector of
`swapExactTokensForTokens(uint256,uint256,address[],address,uint256)` (lines 59-61). -/
def SIG_V2_SWAP_EXACT_TOKENS_FOR_TOKENS : List ℕ := [0x38, 0xed, 0x17, 0x39]

/-- 4-byte selector of
`exactInputSingle((address,address,uint24,address,uint256,uint256,uint256,uint160))`
(lines 62-64). -/
def SIG_V3_EXACT_INPUT_SINGLE : List ℕ := [0x41, 0x4b, 0xf3, 0x89]

/-- The Swap Descriptor returned by `parse_uniswap_call`. -/
structure SwapDesc where
  dex : String
  method : String
  token_in : List ℕ
  token_out : List ℕ
deriving DecidableEq

/-- The `swapExactETHForTokens` branch (lines 73-80): decode
`(uint256, address[], address, uint256)`, then take the first and last
path hops; an empty path raises `IndexError` in the source, caught and
converted to `None`. -/
def decodeSwapExactETHForTokens (data : List ℕ) : Option SwapDesc :=
  match decodeUintAt data 0, decodeUintAt data 32,
        decodeAddressAt data 64, decodeUintAt data 96 with
  | some _, some off, some _, some _ =>
    match decodeAddressArrayAt data off with
    | some path =>
      match path.head?, path.getLast? with
      | some ti, some tout => some ⟨"V2", "swapExactETHForTokens", ti, tout⟩
      | _, _ => none
    | none => none
  | _, _, _, _ => none

/-- The `swapExactTokensForTokens` branch (lines 82-89). -/
def decodeSwapExactTokensForTokens (data : List ℕ) : Option SwapDesc :=
  match decodeUintAt data 0, decodeUintAt data 32, decodeUintAt data 64,
        decodeAddressAt data 96, decodeUintAt data 128 with
  | some _, some _, some off, some _, some _ =>
    match decodeAddressArrayAt data off with
    | some path =>
      match path.head?, path.getLast? with
      | some ti, some tout => some ⟨"V2", "swapExactTokensForTokens", ti, tout⟩
      | _, _ => none
    | none => none
  | _, _, _, _, _ => none

/-- The `exactInputSingle` branch (lines 91-99): eight static components,
tokens are the first two. -/
def decodeExactInputSingle (data : List ℕ) : Option SwapDesc :=
  match decodeAddressAt data 0, decodeAddressAt data 32, decodeUintAt data 64,
        decodeAddressAt data 96, decodeUintAt data 128, decodeUintAt data 160,
        decodeUintAt data 192, decodeUintAt data 224 with
  | some ti, some tout, some _, some _, some _, some _, some _, some _ =>
    some ⟨"V3", "exactInputSingle", ti, tout⟩
  | _, _, _, _, _, _, _, _ => none

/-- The selector dispatch of `parse_uniswap_call` (lines 66-101) at byte
level, keyed by the 4-byte keccak selectors that the signature constants
denote.  Every exception in the source's branches is caught and becomes
`None`; the model is a total function into `Option`.  NOTE: the source
does not compare bytes — it compares the hex STRING
`input_data[:4].hex()` (lowercase, unprefixed, line 70) with the
`HexBytes.hex()` constants of lines 56-64, which carry a `0x` prefix;
that comparison, modelled faithfully by `parse_uniswap_call_hexcmp`
below, never succeeds, so in the program these decode branches are dead
code.  This byte-level dispatch is what the constants intend and is the
model against which the all-negative guard guarantees are stated (they
hold of the program a fortiori). -/
def parse_uniswap_call (input_data : List ℕ) : Option SwapDesc :=
  if input_data.length < 4 then none
  else
    let sig := input_data.take 4
    let data := input_data.drop 4
    if sig = SIG_V2_SWAP_EXACT_ETH_FOR_TOKENS then decodeSwapExactETHForTokens data
    else if sig = SIG_V2_SWAP_EXACT_TOKENS_FOR_TOKENS then decodeSwapExactTokensForTokens data
    else if sig = SIG_V3_EXACT_INPUT_SINGLE then decodeExactInputSingle data
    else none

/-- One lowercase hex digit character. -/
def hexDigitChar (n : ℕ) : Char :=
  if n < 10 then Char.ofNat ('0'.toNat + n) else Char.ofNat ('a'.toNat + n - 10)

/-- `bytes.hex()`: the lowercase, UNprefixed hex string of a byte
sequence, as computed for `sig = input_data[:4].hex()` at line 70
(`input_data` is a plain `bytes` built by `bytes.fromhex`). -/
def bytesHex (bs : List ℕ) : String :=
  ⟨(bs.map fun b => [hexDigitChar (b / 16), hexDigitChar (b % 16)]).flatten⟩

/-- The selector constant of lines 56-58 as the program computes it:
`_W3.keccak(...)[:4]` is a `HexBytes`, and `HexBytes.hex()` returns a
`0x`-PREFIXED string. -/
def SIG_V2_SWAP_EXACT_ETH_FOR_TOKENS_HEXSTR : String := "0x7ff36ab5"

/-- The `HexBytes.hex()` selector constant of lines 59-61 (prefixed). -/
def SIG_V2_SWAP_EXACT_TOKENS_FOR_TOKENS_HEXSTR : String := "0x38ed1739"

/-- The `HexBytes.hex()` selector constant of lines 62-64 (prefixed). -/
def SIG_V3_EXACT_INPUT_SINGLE_HEXSTR : String := "0x414bf389"

/-- `parse_uniswap_call` as the program actually executes it (lines
66-101): the 8-character unprefixed `sig` string is compared with the
10-character prefixed constants, so no decode branch can ever be
taken and every call returns `None`
(`parse_uniswap_call_hexcmp_none`). -/
def parse_uniswap_call_hexcmp (input_data : List ℕ) : Option SwapDesc :=
  if input_data.length < 4 then none
  else
    let sig := bytesHex (input_data.take 4)
    let data := input_data.drop 4
    if sig = SIG_V2_SWAP_EXACT_ETH_FOR_TOKENS_HEXSTR then decodeSwapExactETHForTokens data
    else if sig = SIG_V2_SWAP_EXACT_TOKENS_FOR_TOKENS_HEXSTR then
      decodeSwapExactTokensForTokens data
    else if sig = SIG_V3_EXACT_INPUT_SINGLE_HEXSTR then decodeExactInputSingle data
    else none

/- ---------------------------------------------------------------------
   EVM classification: the per-transaction body of `watch_evm`
   (lines 292-330).
   --------------------------------------------------------------------- -/

/-- The configuration fields of `EvmChainCfg` that classification reads:
`routers` (name, address pairs), thresholds, and the whale list. -/
structure EvmChainCfg where
  routers : List (String × String)
  min_usd : ℚ
  min_native : ℚ
  whales : List String

/-- A resolved transaction as `watch_evm` reads it: `to`/`from` may be
absent, `value` is in wei, `input` is the call-data hex string. -/
structure EvmTx where
  to_ : Option String
  frm : Option String
  value : ℕ
  input : Option String

/-- The INTENDED swap-decode pipeline applied to the transaction input
string (lines 311-315): require a `0x` prefix and at least 10
characters, hex-decode the remainder (dropping the two prefix
characters), and run the byte-level selector dispatch
`parse_uniswap_call`; any failure is `none`.  This is the spec side of
descriptor production (spec §4.2: leading 4 bytes matching a recognized
signature produce a Swap Descriptor), used by `specAlertableEvm`. -/
def inputSwapDescriptor (inp : String) : Option SwapDesc :=
  if startsWith0x inp = true ∧ 10 ≤ inp.length then
    match hexPairsToBytes? (inp.data.drop 2) with
    | some bs => parse_uniswap_call bs
    | none => none
  else none

/-- The same pipeline as the program executes it, with the faithful
string-compared selector dispatch (`parse_uniswap_call_hexcmp`): it
always yields `none` (`inputSwapDescriptorSrc_none`). -/
def inputSwapDescriptorSrc (inp : String) : Option SwapDesc :=
  if startsWith0x inp = true ∧ 10 ≤ inp.length then
    match hexPairsToBytes? (inp.data.drop 2) with
    | some bs => parse_uniswap_call_hexcmp bs
    | none => none
  else none

/-- The input hex string of a valid `exactInputSingle` call: `0x`, the V3
selector `414bf389`, then eight zero 64-hex-digit words (the two token
addresses decode as the zero address). -/
def exactInputSingleHexStr : String :=
  ⟨'0' :: 'x' :: '4' :: '1' :: '4' :: 'b' :: 'f' :: '3' :: '8' :: '9' ::
    List.replicate 512 '0'⟩

/-- The classification outcome for one transaction, with the intermediate
flags the source computes and the two display-relevant facts (whether an
alert is sent and whether the fiat figure appears in it). -/
structure EvmClass where
  to_addr : String
  frm : String
  is_router : Bool
  value_native : ℚ
  est_usd : Option ℚ
  swap_info : Option SwapDesc
  is_whale : Bool
  big_native : Bool
  big_usd : Bool
  alert : Bool
  usd_shown : Bool
deriving DecidableEq

/-- The per-transaction classification of `watch_evm` (lines 267, 292-330).
`rate` is the result of `get_native_usd`; line 267 turns an absent rate
into `0.0`, and line 306 turns a zero rate into an absent fiat estimate.
An alert is emitted exactly when `alert` is true (line 321).  The swap
pipeline is the faithful `inputSwapDescriptorSrc`, whose selector
comparison never succeeds — in the program `swap_info` is always
`None`. -/
def classifyEvm (cfg : EvmChainCfg) (rate : Option ℚ) (tx : EvmTx) : EvmClass :=
  let native_usd : ℚ := rate.getD 0
  let routers_lc : List String := cfg.routers.map (fun p => lowerStr p.2)
  let whales_lc : List String := cfg.whales.map lowerStr
  let to_addr := lowerStr (tx.to_.getD "")
  let frm := lowerStr (tx.frm.getD "")
  let is_router : Bool := decide (to_addr ∈ routers_lc)
  let value_native : ℚ := (tx.value : ℚ) / 10 ^ 18
  let est_usd : Option ℚ := if native_usd = 0 then none else some (value_native * native_usd)
  let inp := tx.input.getD ""
  let swap_info : Option SwapDesc := if is_router then inputSwapDescriptorSrc inp else none
  let is_whale : Bool := decide (frm ∈ whales_lc)
  let big_native : Bool := decide (cfg.min_native ≤ value_native)
  let big_usd : Bool := decide (cfg.min_usd ≤ est_usd.getD 0)
  { to_addr := to_addr, frm := frm, is_router := is_router,
    value_native := value_native, est_usd := est_usd, swap_info := swap_info,
    is_whale := is_whale, big_native := big_native, big_usd := big_usd,
    alert := is_router && (is_whale || big_native || big_usd || swap_info.isSome),
    usd_shown := decide (est_usd.getD 0 ≠ 0) }

/-- Modelled from the spec: "Estimated fiat value = native amount × cached
native-asset rate; if no rate is available [the lookup returns None or the
rate is zero], ... treated as absent". -/
def specEstUsd (rate : Option ℚ) (tx : EvmTx) : Option ℚ :=
  if rate.getD 0 = 0 then none else some ((tx.value : ℚ) / 10 ^ 18 * rate.getD 0)

/-- Modelled from the spec sentence behind C1: "alertable iff destination is
a known router address AND (sender is a known whale OR native amount ≥
configured native threshold OR estimated fiat value ≥ configured fiat
threshold OR a Swap Descriptor was produced)", with addresses compared
case-insensitively. -/
def specAlertableEvm (cfg : EvmChainCfg) (rate : Option ℚ) (tx : EvmTx) : Prop :=
  (lowerStr (tx.to_.getD "") ∈ cfg.routers.map (fun p => lowerStr p.2)) ∧
  ((lowerStr (tx.frm.getD "") ∈ cfg.whales.map lowerStr) ∨
   cfg.min_native ≤ (tx.value : ℚ) / 10 ^ 18 ∨
   (∃ e : ℚ, specEstUsd rate tx = some e ∧ cfg.min_usd ≤ e) ∨
   (inputSwapDescriptor (tx.input.getD "")).isSome = true)

/- ---------------------------------------------------------------------
   Adaptive whale learning: `AutoLearn` (whale_watcher.py lines 146-225).
   `consider` is embedded with the clock (`now`), today's date string,
   the in-memory whale set and the durable config document passed
   explicitly.  Timestamps and fiat values are exact rationals.
   --------------------------------------------------------------------- -/

/-- The `autolearn` configuration fields (lines 150-157). -/
structure AutoLearnCfg where
  enabled : Bool
  min_usd : ℚ
  occurrences : ℤ
  window_hours : ℤ
  max_new_per_day : ℤ
  persist_to_config : Bool

/-- The persisted learning state `{counters, day, added_today}`
(line 160). -/
structure ALState where
  counters : List (String × List ℚ)
  day : String
  added_today : ℤ
deriving DecidableEq

/-- The durable configuration document as promotion persistence sees it:
the `whales_evm` list plus all other fields, kept opaque. -/
structure ConfigDoc where
  whales_evm : List String
  rest : List (String × String)
deriving DecidableEq

/-- Everything one `consider` call returns or mutates. -/
structure ConsiderResult where
  learned : Option String
  state : ALState
  whales : List String
  config : ConfigDoc
deriving DecidableEq

/-- Lines 199-201: keep timestamps with `now - t <= window`, then append
`now`. -/
def pruneAppend (c : List ℚ) (now window : ℚ) : List ℚ :=
  (c.filter fun t => decide (now - t ≤ window)) ++ [now]

/-- `_reset_day_if_needed` (lines 180-184). -/
def resetDayIfNeeded (st : ALState) (today : String) : ALState :=
  if st.day ≠ today then { st with day := today, added_today := 0 } else st

/-- The persist-to-config block (lines 211-218): re-read the config
document, append the original-case address to `whales_evm` unless its
lower-case form is already present (case-insensitively), leave every
other field alone. -/
def persistPromotion (doc : ConfigDoc) (addr address : String) : ConfigDoc :=
  if addr ∈ doc.whales_evm.map lowerStr then doc
  else { doc with whales_evm := doc.whales_evm ++ [address] }

/-- `AutoLearn.consider` (lines 186-225). -/
def consider (cfg : AutoLearnCfg) (st : ALState) (whales : List String)
    (doc : ConfigDoc) (today : String) (now : ℚ)
    (address : String) (est_usd : Option ℚ) : ConsiderResult :=
  if cfg.enabled = false then ⟨none, st, whales, doc⟩
  else
    let addr := lowerStr address
    if addr ∈ whales then ⟨none, st, whales, doc⟩
    else if est_usd.getD 0 < cfg.min_usd then ⟨none, st, whales, doc⟩
    else
      let window : ℚ := ((cfg.window_hours * 3600 : ℤ) : ℚ)
      let c := pruneAppend (alGet st.counters addr) now window
      let st1 := resetDayIfNeeded { st with counters := alSet st.counters addr c } today
      if cfg.occurrences ≤ (c.length : ℤ) ∧ st1.added_today < cfg.max_new_per_day then
        ⟨some address,
         { st1 with added_today := st1.added_today + 1 },
         addr :: whales,
         if cfg.persist_to_config then persistPromotion doc addr address else doc⟩
      else ⟨none, st1, whales, doc⟩

/-- A sequence of `consider` calls, threading state, whale set and config
document; returns the final triple and the list of per-call results. -/
def runConsider (cfg : AutoLearnCfg) (today : String) :
    ALState × List String × ConfigDoc → List (ℚ × String × Option ℚ) →
    (ALState × List String × ConfigDoc) × List (Option String)
  | s, [] => (s, [])
  | (st, whales, doc), (now, address, est) :: rest =>
    let r := consider cfg st whales doc today now address est
    let next := runConsider cfg today (r.state, r.whales, r.config) rest
    (next.1, r.learned :: next.2)

/-- The per-call counter sizes produced by the source's inclusive pruning
(`now - t <= window`) when one address receives qualifying events at the
given times. -/
def countTrace (window : ℚ) : List ℚ → List ℚ → List ℕ
  | _c, [] => []
  | c, t :: ts =>
    let c' := pruneAppend c t window
    c'.length :: countTrace window c' ts

/-- Modelled from the spec: "the sliding window for promotion purposes only
counts qualifying events strictly within the configured window duration" —
retain a timestamp only when `now - t < window`, strictly. -/
def strictPruneAppend (c : List ℚ) (now window : ℚ) : List ℚ :=
  (c.filter fun t => decide (now - t < window)) ++ [now]

/-- The per-call counter sizes under the spec's strict-window reading. -/
def strictCountTrace (window : ℚ) : List ℚ → List ℚ → List ℕ
  | _c, [] => []
  | c, t :: ts =>
    let c' := strictPruneAppend c t window
    c'.length :: strictCountTrace window c' ts

/- ---------------------------------------------------------------------
   State serialization (`_save_state`, lines 172-178, and the constructor
   read-back, lines 160-167).  `json.dump`/`json.load` map the state dict
   to/from a JSON document; the document tree is modelled explicitly,
   the byte-level text encoding is the json library's (lossless for
   finite floats, ints and strings).
   --------------------------------------------------------------------- -/

/-- A JSON value.  Python ints and floats round-trip as distinct number
shapes, so they are kept apart. -/
inductive Jv where
  | jnull
  | jbool (b : Bool)
  | jint (n : ℤ)
  | jnum (q : ℚ)
  | jstr (s : String)
  | jarr (elems : List Jv)
  | jobj (fields : List (String × Jv))

/-- Serialize the state dict as `json.dump` sees it (line 176). -/
def stateToJson (st : ALState) : Jv :=
  Jv.jobj [("counters", Jv.jobj (st.counters.map fun p => (p.1, Jv.jarr (p.2.map Jv.jnum)))),
           ("day", Jv.jstr st.day),
           ("added_today", Jv.jint st.added_today)]

/-- Read back one timestamp list. -/
def timestampList? : List Jv → Option (List ℚ)
  | [] => some []
  | Jv.jnum q :: rest => (timestampList? rest).map (q :: ·)
  | _ => none

/-- Read back the counters object. -/
def countersList? : List (String × Jv) → Option (List (String × List ℚ))
  | [] => some []
  | (k, Jv.jarr xs) :: rest =>
    match timestampList? xs with
    | some l => (countersList? rest).map ((k, l) :: ·)
    | none => none
  | _ => none

/-- Read a state document back into the shape the constructor uses
(`self.state = json.load(f)`, line 165). -/
def stateOfJson : Jv → Option ALState
  | Jv.jobj [("counters", Jv.jobj kvs), ("day", Jv.jstr d), ("added_today", Jv.jint n)] =>
    (countersList? kvs).map fun cs => ⟨cs, d, n⟩
  | _ => none

/- ---------------------------------------------------------------------
   Reconnect backoff shared by `evm_ws_sub` (lines 228-252) and
   `solana_logs_sub` (lines 354-371): `backoff = 2` once before the loop,
   `sleep(backoff); backoff = min(backoff * 2, 30)` after every failed
   connection attempt.  An outcome `true` means the connection succeeded
   before eventually failing, `false` that it failed outright; the delay
   slept after each attempt is recorded.
   --------------------------------------------------------------------- -/

/-- Initial backoff (line 233 / line 357). -/
def BACKOFF_START : ℕ := 2

/-- Backoff cap (line 252 / line 371). -/
def BACKOFF_CAP : ℕ := 30

/-- The delays slept after each connection attempt, starting from backoff
value `b`.  The attempt's outcome is ignored, exactly as in the source:
nothing resets `backoff` on a successful connection. -/
def backoffRun : ℕ → List Bool → List ℕ
  | _, [] => []
  | b, _ :: rest => b :: backoffRun (min (b * 2) BACKOFF_CAP) rest

/- ---------------------------------------------------------------------
   Message filtering in `evm_ws_sub` (lines 241-248).  Per received
   message: `ok (some s)` = the hash is yielded; `ok none` = the message
   is skipped and the receive loop continues; `error ()` = an exception
   (e.g. `.get` on a non-dict) escapes to the `except`, tearing the
   connection down and triggering a reconnect.
   --------------------------------------------------------------------- -/

/-- `dict.get(k)` on a JSON object. -/
def dictGet (kvs : List (String × Jv)) (k : String) : Option Jv :=
  (kvs.find? (fun p => p.1 == k)).map Prod.snd

/-- Processing of one decoded message by the `evm_ws_sub` receive loop. -/
def evmSubExtract (msg : Jv) : Except Unit (Option String) :=
  match msg with
  | Jv.jobj kvs =>
    match dictGet kvs "method" with
    | some (Jv.jstr m) =>
      if m = "eth_subscription" then
        match (dictGet kvs "params").getD (Jv.jobj []) with
        | Jv.jobj pkvs =>
          match dictGet pkvs "result" with
          | some (Jv.jstr s) =>
            if startsWith0x s = true ∧ s.length = 66 then Except.ok (some s)
            else Except.ok none
          | _ => Except.ok none
        | _ => Except.error ()
      else Except.ok none
    | _ => Except.ok none
  | _ => Except.error ()

/- ---------------------------------------------------------------------
   Helper lemmas.
   --------------------------------------------------------------------- -/

/-- `alGet` after `alSet` at the same key returns the stored value. -/
theorem alGet_alSet_self (k : String) (v : List ℚ) :
    ∀ m : List (String × List ℚ), alGet (alSet m k v) k = v := by
  intro m
  induction m with
  | nil => simp [alSet, alGet]
  | cons p rest ih =>
    by_cases hp : (p.1 == k) = true
    · simp [alSet, alGet, hp]
    · simp only [alSet, hp, Bool.false_eq_true, if_false]
      simp [alGet, hp, ih]

/-- A qualifying `consider` call (enabled, sender not a whale, estimate at
or above the learning threshold) reaches the prune/append/promotion logic. -/
theorem consider_qualifying (cfg : AutoLearnCfg) (st : ALState) (whales : List String)
    (doc : ConfigDoc) (today : String) (now : ℚ) (address : String) (e : ℚ)
    (hen : cfg.enabled = true)
    (hw : lowerStr address ∉ whales)
    (he : cfg.min_usd ≤ e) :
    consider cfg st whales doc today now address (some e) =
      (let c := pruneAppend (alGet st.counters (lowerStr address)) now
         ((cfg.window_hours * 3600 : ℤ) : ℚ)
       let st1 := resetDayIfNeeded
         { st with counters := alSet st.counters (lowerStr address) c } today
       if cfg.occurrences ≤ (c.length : ℤ) ∧ st1.added_today < cfg.max_new_per_day then
         ⟨some address, { st1 with added_today := st1.added_today + 1 },
          lowerStr address :: whales,
          if cfg.persist_to_config then persistPromotion doc (lowerStr address) address else doc⟩
       else ⟨none, st1, whales, doc⟩) := by
  simp [consider, hen, hw, not_lt.mpr he]

/-- When nothing is old enough to prune, `pruneAppend` just appends. -/
theorem pruneAppend_no_prune (c : List ℚ) (now window : ℚ)
    (h : ∀ x ∈ c, now - x ≤ window) :
    pruneAppend c now window = c ++ [now] := by
  unfold pruneAppend
  congr 1
  exact List.filter_eq_self.mpr (fun x hx => decide_eq_true (h x hx))

/- ---------------------------------------------------------------------
   C5 — `parse_uniswap_call` guard behaviour.
   --------------------------------------------------------------------- -/

/-- C5: `parse_uniswap_call` never raises (it is a total function into
`Option`, every source exception being caught and converted to `None`);
inputs shorter than 4 bytes yield `none`, inputs whose first 4 bytes match
no recognized selector yield `none`, and a failing argument decode for a
recognized selector yields `none`. -/
theorem parse_uniswap_call_guards (input : List ℕ) :
    (input.length < 4 → parse_uniswap_call input = none) ∧
    (input.take 4 ≠ SIG_V2_SWAP_EXACT_ETH_FOR_TOKENS →
     input.take 4 ≠ SIG_V2_SWAP_EXACT_TOKENS_FOR_TOKENS →
     input.take 4 ≠ SIG_V3_EXACT_INPUT_SINGLE →
     parse_uniswap_call input = none) ∧
    (input.take 4 = SIG_V2_SWAP_EXACT_ETH_FOR_TOKENS →
     decodeSwapExactETHForTokens (input.drop 4) = none →
     parse_uniswap_call input = none) ∧
    (input.take 4 = SIG_V2_SWAP_EXACT_TOKENS_FOR_TOKENS →
     decodeSwapExactTokensForTokens (input.drop 4) = none →
     parse_uniswap_call input = none) ∧
    (input.take 4 = SIG_V3_EXACT_INPUT_SINGLE →
     decodeExactInputSingle (input.drop 4) = none →
     parse_uniswap_call input = none) := by
  by_cases hl : input.length < 4
  · refine ⟨fun _ => ?_, fun _ _ _ => ?_, fun _ _ => ?_, fun _ _ => ?_, fun _ _ => ?_⟩ <;>
      simp [parse_uniswap_call, hl]
  · refine ⟨fun h => absurd h hl, ?_, ?_, ?_, ?_⟩
    · intro h1 h2 h3
      simp [parse_uniswap_call, hl, h1, h2, h3]
    · intro h1 hd
      simp [parse_uniswap_call, hl, h1, hd]
    · intro h1 hd
      simp [parse_uniswap_call, hl, h1, hd, SIG_V2_SWAP_EXACT_ETH_FOR_TOKENS,
            SIG_V2_SWAP_EXACT_TOKENS_FOR_TOKENS]
    · intro h1 hd
      simp [parse_uniswap_call, hl, h1, hd, SIG_V2_SWAP_EXACT_ETH_FOR_TOKENS,
            SIG_V2_SWAP_EXACT_TOKENS_FOR_TOKENS, SIG_V3_EXACT_INPUT_SINGLE]

/-- C5 witness: a 3-byte input is rejected. -/
theorem parse_uniswap_call_guards_witness : parse_uniswap_call [0, 1, 2] = none :=
  (parse_uniswap_call_guards [0, 1, 2]).1 (by decide)

/- ---------------------------------------------------------------------
   C7 — state serialization round-trip.
   --------------------------------------------------------------------- -/

/-- Reading back a serialized timestamp list restores it. -/
theorem timestampList_roundtrip (l : List ℚ) :
    timestampList? (l.map Jv.jnum) = some l := by
  induction l with
  | nil => rfl
  | cons q rest ih => simp [timestampList?, ih]

/-- Reading back a serialized counters object restores it. -/
theorem countersList_roundtrip (cs : List (String × List ℚ)) :
    countersList? (cs.map fun p => (p.1, Jv.jarr (p.2.map Jv.jnum))) = some cs := by
  induction cs with
  | nil => rfl
  | cons p rest ih =>
    obtain ⟨k, l⟩ := p
    simp [countersList?, timestampList_roundtrip, ih]

/-- C7: writing the learning state as `_save_state` does and reading the
document back as the constructor does yields an identical state — every
per-address timestamp list, the day string and `added_today` survive. -/
theorem state_json_roundtrip (st : ALState) :
    stateOfJson (stateToJson st) = some st := by
  obtain ⟨cs, d, n⟩ := st
  simp [stateToJson, stateOfJson, countersList_roundtrip]

/- ---------------------------------------------------------------------
   C8 — reconnect backoff.
   --------------------------------------------------------------------- -/

/-- Closed form of the backoff delays: position `i` sleeps
`min (b * 2 ^ i) 30`, independent of connection outcomes. -/
theorem backoffRun_closed (outs : List Bool) :
    ∀ b : ℕ, b ≤ BACKOFF_CAP →
      backoffRun b outs
        = (List.range outs.length).map (fun i => min (b * 2 ^ i) BACKOFF_CAP) := by
  induction outs with
  | nil => intro b _; rfl
  | cons o rest ih =>
    intro b hb
    rw [backoffRun, ih _ (min_le_right _ _), List.length_cons, List.range_succ_eq_map]
    simp only [List.map_cons, List.map_map]
    rw [pow_zero, mul_one, Nat.min_eq_left hb]
    congr 1
    apply List.map_congr_left
    intro i _
    show min (min (b * 2) BACKOFF_CAP * 2 ^ i) BACKOFF_CAP
      = min (b * 2 ^ (i + 1)) BACKOFF_CAP
    rcases le_total (b * 2) BACKOFF_CAP with h | h
    · rw [Nat.min_eq_left h]
      congr 1
      ring
    · rw [Nat.min_eq_right h]
      have hpow : 0 < 2 ^ i := pow_pos (by decide) i
      have h1 : BACKOFF_CAP ≤ BACKOFF_CAP * 2 ^ i := Nat.le_mul_of_pos_right _ hpow
      have h2 : BACKOFF_CAP ≤ b * 2 ^ (i + 1) := by
        calc BACKOFF_CAP ≤ b * 2 := h
        _ ≤ b * 2 * 2 ^ i := Nat.le_mul_of_pos_right _ hpow
        _ = b * 2 ^ (i + 1) := by ring
      rw [Nat.min_eq_right h1, Nat.min_eq_right h2]

/-- C8 (amended): in every subscription channel the reconnect delay starts
at the 2-second minimum, doubles after each failed connection attempt and
is capped at 30 seconds, but it does NOT return to the minimum after a
successful connection: the delay after the `i`-th attempt is
`min (2 * 2 ^ i) 30` regardless of which attempts succeeded.  The
generator itself never terminates: every attempt in the trace is followed
by a reconnect, so the message sequence survives each failure. -/
theorem ws_backoff_progression (outcomes : List Bool) :
    backoffRun BACKOFF_START outcomes
      = (List.range outcomes.length).map (fun i => min (BACKOFF_START * 2 ^ i) BACKOFF_CAP) ∧
    (backoffRun BACKOFF_START outcomes).length = outcomes.length := by
  refine ⟨backoffRun_closed outcomes BACKOFF_START (by decide), ?_⟩
  rw [backoffRun_closed outcomes BACKOFF_START (by decide)]
  simp

/-- C8 counterexample: after four failures the backoff sits at the 30 s
cap; the fifth attempt connects successfully (`true`) and later drops, and
the delay slept before the next reconnect is still 30 s — not the 2 s
minimum the claim promises after a successful connection. -/
theorem ws_backoff_no_reset_counterexample :
    backoffRun BACKOFF_START [false, false, false, false, true] = [2, 4, 8, 16, 30] ∧
    (backoffRun BACKOFF_START [false, false, false, false, true]).getLast? ≠
      some BACKOFF_START := by
  decide

/- ---------------------------------------------------------------------
   C2 — whale-membership guard in `consider`.
   --------------------------------------------------------------------- -/

/-- C2 demonstration (code bug): `main` (line 482) seeds
`AutoLearn.whales_set` with `set(cfg.get("whales_evm", []))` WITHOUT
lower-casing (unlike `build_evm_cfgs`, line 407), while `consider`
(line 190) lower-cases the incoming address before the membership test.
With the config whale list `["0xAB"]` and a qualifying call for the very
same address `"0xAB"`, the guard misses: `consider` appends a timestamp
and even re-promotes the address, where the claim (and the spec invariant
of case-insensitive EVM comparison) requires `None` and no counter
append. -/
theorem consider_whale_membership_bug_demo :
    (consider ⟨true, 100, 1, 24, 5, false⟩ ⟨[], "2026-10-12", 0⟩ ["0xAB"] ⟨[], []⟩
        "2026-10-12" 1000 "0xAB" (some 1000)).learned = some "0xAB" ∧
    alGet (consider ⟨true, 100, 1, 24, 5, false⟩ ⟨[], "2026-10-12", 0⟩ ["0xAB"] ⟨[], []⟩
        "2026-10-12" 1000 "0xAB" (some 1000)).state.counters "0xab" = [1000] := by
  have hlow : lowerStr "0xAB" = "0xab" := by decide
  have hne : ("0xab" : String) = "0xAB" ↔ False := by decide
  constructor <;>
    norm_num [consider, hlow, hne, alGet, alSet, pruneAppend, resetDayIfNeeded]

/- ---------------------------------------------------------------------
   C4 — the daily promotion quota.
   --------------------------------------------------------------------- -/

/-- One `consider` call under an exhausted quota (state day still equal to
today): no promotion, no whale-set change, no quota change, config
untouched. -/
theorem consider_quota_blocked (cfg : AutoLearnCfg) (st : ALState) (whales : List String)
    (doc : ConfigDoc) (today : String) (now : ℚ) (address : String) (est : Option ℚ)
    (hday : st.day = today) (hadd : st.added_today = cfg.max_new_per_day) :
    (consider cfg st whales doc today now address est).learned = none ∧
    (consider cfg st whales doc today now address est).state.day = today ∧
    (consider cfg st whales doc today now address est).state.added_today =
      cfg.max_new_per_day ∧
    (consider cfg st whales doc today now address est).whales = whales ∧
    (consider cfg st whales doc today now address est).config = doc := by
  simp only [consider]
  split
  · exact ⟨rfl, hday, hadd, rfl, rfl⟩
  · split
    · exact ⟨rfl, hday, hadd, rfl, rfl⟩
    · split
      · exact ⟨rfl, hday, hadd, rfl, rfl⟩
      · simp only [resetDayIfNeeded, hday, ne_eq, not_true_eq_false, if_false]
        split
        · next hcond =>
          exact absurd (hadd ▸ hcond.2) (lt_irrefl _)
        · exact ⟨rfl, rfl, hadd, rfl, rfl⟩

/-- C4: while `added_today` equals `max_new_per_day` and the state's day
has not changed, an arbitrary sequence of further `consider` calls (for
any addresses, values, and count) promotes nobody: every call returns
`None`, the whale set and the quota counter are unchanged, and the state
day stays put; counted addresses are merely re-evaluated later. -/
theorem consider_daily_quota_blocks (cfg : AutoLearnCfg) (today : String) :
    ∀ (calls : List (ℚ × String × Option ℚ)) (st : ALState) (whales : List String)
      (doc : ConfigDoc),
      st.day = today → st.added_today = cfg.max_new_per_day →
      (runConsider cfg today (st, whales, doc) calls).2 = List.replicate calls.length none ∧
      (runConsider cfg today (st, whales, doc) calls).1.1.day = today ∧
      (runConsider cfg today (st, whales, doc) calls).1.1.added_today =
        cfg.max_new_per_day ∧
      (runConsider cfg today (st, whales, doc) calls).1.2.1 = whales := by
  intro calls
  induction calls with
  | nil =>
    intro st whales doc hday hadd
    exact ⟨rfl, hday, hadd, rfl⟩
  | cons c rest ih =>
    obtain ⟨now, address, est⟩ := c
    intro st whales doc hday hadd
    obtain ⟨hl, hd, ha, hw, hc⟩ :=
      consider_quota_blocked cfg st whales doc today now address est hday hadd
    have ihr := ih (consider cfg st whales doc today now address est).state whales doc hd ha
    simp only [runConsider, hw, hc, hl]
    refine ⟨?_, ihr.2.1, ihr.2.2.1, ihr.2.2.2⟩
    rw [List.length_cons, List.replicate_succ, ihr.1]

/-- C4 witness: quota `max_new_per_day = 1` already used up today — two
further qualifying events for a fresh address yield no promotion and leave
the whale set and counter unchanged. -/
theorem consider_daily_quota_blocks_witness :
    (runConsider ⟨true, 100, 1, 24, 1, false⟩ "d" (⟨[], "d", 1⟩, [], ⟨[], []⟩)
        [(0, "0xcc", some 500), (10, "0xcc", some 500)]).2 = [none, none] ∧
    (runConsider ⟨true, 100, 1, 24, 1, false⟩ "d" (⟨[], "d", 1⟩, [], ⟨[], []⟩)
        [(0, "0xcc", some 500), (10, "0xcc", some 500)]).1.1.added_today = 1 ∧
    (runConsider ⟨true, 100, 1, 24, 1, false⟩ "d" (⟨[], "d", 1⟩, [], ⟨[], []⟩)
        [(0, "0xcc", some 500), (10, "0xcc", some 500)]).1.2.1 = [] := by
  have h := consider_daily_quota_blocks ⟨true, 100, 1, 24, 1, false⟩ "d"
    [(0, "0xcc", some 500), (10, "0xcc", some 500)] ⟨[], "d", 1⟩ [] ⟨[], []⟩ rfl rfl
  exact ⟨h.1, h.2.2.1, h.2.2.2⟩

/- ---------------------------------------------------------------------
   C9 — promotion persistence merges into the config document.
   --------------------------------------------------------------------- -/

/-- C9: when `persist_to_config` is on and a `consider` call promotes, the
resulting config document keeps every other field unchanged, and its
`whales_evm` list is either unchanged (address already present
case-insensitively) or the original list with the original-case address
appended. -/
theorem persist_promotion_merges (cfg : AutoLearnCfg) (st : ALState) (whales : List String)
    (doc : ConfigDoc) (today : String) (now : ℚ) (address : String) (est : Option ℚ) (a : String)
    (hp : cfg.persist_to_config = true)
    (hl : (consider cfg st whales doc today now address est).learned = some a) :
    (consider cfg st whales doc today now address est).config.rest = doc.rest ∧
    (lowerStr address ∈ doc.whales_evm.map lowerStr →
      (consider cfg st whales doc today now address est).config.whales_evm =
        doc.whales_evm) ∧
    (lowerStr address ∉ doc.whales_evm.map lowerStr →
      (consider cfg st whales doc today now address est).config.whales_evm =
        doc.whales_evm ++ [address]) := by
  simp only [consider] at hl ⊢
  split at hl
  next hen => simp at hl
  next hen =>
    split at hl
    next hwm => simp at hl
    next hwm =>
      split at hl
      next hq => simp at hl
      next hq =>
        split at hl
        next hcond =>
          rw [if_neg hen, if_neg hwm, if_neg hq, if_pos hcond, if_pos hp]
          by_cases hm : lowerStr address ∈ doc.whales_evm.map lowerStr
          · simp [persistPromotion, hm]
          · simp [persistPromotion, hm]
        next hcond => simp at hl

/-- C9 witness: a promoting call with persistence on appends the new
address (original case) to `whales_evm` and leaves the other config fields
exactly as they were. -/
theorem persist_promotion_merges_witness :
    (consider ⟨true, 1, 1, 1, 1, true⟩ ⟨[], "d", 0⟩ [] ⟨["0xEx"], [("k", "v")]⟩
        "d" 0 "0xQ" (some 5)).config.rest = [("k", "v")] ∧
    (consider ⟨true, 1, 1, 1, 1, true⟩ ⟨[], "d", 0⟩ [] ⟨["0xEx"], [("k", "v")]⟩
        "d" 0 "0xQ" (some 5)).config.whales_evm = ["0xEx", "0xQ"] := by
  have hlearn : (consider ⟨true, 1, 1, 1, 1, true⟩ ⟨[], "d", 0⟩ [] ⟨["0xEx"], [("k", "v")]⟩
      "d" 0 "0xQ" (some 5)).learned = some "0xQ" := by
    have hlow : lowerStr "0xQ" = "0xq" := by decide
    norm_num [consider, hlow, alGet, alSet, pruneAppend, resetDayIfNeeded, persistPromotion]
  have h := persist_promotion_merges ⟨true, 1, 1, 1, 1, true⟩ ⟨[], "d", 0⟩ []
    ⟨["0xEx"], [("k", "v")]⟩ "d" 0 "0xQ" (some 5) "0xQ" rfl hlearn
  refine ⟨h.1, ?_⟩
  have hmem : lowerStr "0xQ" ∉ (ConfigDoc.mk ["0xEx"] [("k", "v")]).whales_evm.map lowerStr := by
    decide
  simpa using h.2.2 hmem

/- ---------------------------------------------------------------------
   C1 — EVM alert condition vs the spec rule.
   --------------------------------------------------------------------- -/

/-- The length of `bytes.hex()` output is twice the byte count. -/
theorem bytesHex_length (bs : List ℕ) : (bytesHex bs).length = 2 * bs.length := by
  suffices h : ∀ l : List ℕ,
      ((l.map fun b => [hexDigitChar (b / 16), hexDigitChar (b % 16)]).flatten).length
        = 2 * l.length by
    simpa [bytesHex, String.length] using h bs
  intro l
  induction l with
  | nil => rfl
  | cons b rest ih =>
    simp only [List.map_cons, List.flatten_cons, List.length_append, List.length_cons,
      List.length_nil, ih]
    ring

/-- The program's selector comparison never succeeds: the computed `sig`
is an 8-character unprefixed hex string while every constant is a
10-character `0x`-prefixed string, so the program's
`parse_uniswap_call` returns `None` on every input. -/
theorem parse_uniswap_call_hexcmp_none (input : List ℕ) :
    parse_uniswap_call_hexcmp input = none := by
  by_cases hl : input.length < 4
  · simp [parse_uniswap_call_hexcmp, hl]
  · have htake : (input.take 4).length = 4 := by
      rw [List.length_take]; omega
    have hlen : (bytesHex (input.take 4)).length = 8 := by
      rw [bytesHex_length, htake]
    have hne1 : bytesHex (input.take 4) ≠ SIG_V2_SWAP_EXACT_ETH_FOR_TOKENS_HEXSTR := by
      intro he
      have h10 := congrArg String.length he
      rw [hlen, show SIG_V2_SWAP_EXACT_ETH_FOR_TOKENS_HEXSTR.length = 10 from by decide]
        at h10
      omega
    have hne2 : bytesHex (input.take 4) ≠ SIG_V2_SWAP_EXACT_TOKENS_FOR_TOKENS_HEXSTR := by
      intro he
      have h10 := congrArg String.length he
      rw [hlen, show SIG_V2_SWAP_EXACT_TOKENS_FOR_TOKENS_HEXSTR.length = 10 from by decide]
        at h10
      omega
    have hne3 : bytesHex (input.take 4) ≠ SIG_V3_EXACT_INPUT_SINGLE_HEXSTR := by
      intro he
      have h10 := congrArg String.length he
      rw [hlen, show SIG_V3_EXACT_INPUT_SINGLE_HEXSTR.length = 10 from by decide] at h10
      omega
    simp [parse_uniswap_call_hexcmp, hl, hne1, hne2, hne3]

/-- Consequently the program never produces a Swap Descriptor from any
transaction input string. -/
theorem inputSwapDescriptorSrc_none (s : String) : inputSwapDescriptorSrc s = none := by
  unfold inputSwapDescriptorSrc
  split
  · cases hp : hexPairsToBytes? (s.data.drop 2) with
    | none => simp [hp]
    | some bs => simp [hp, parse_uniswap_call_hexcmp_none]
  · rfl

set_option maxRecDepth 20000 in
/-- The intended dispatch DOES decode the concrete `exactInputSingle`
calldata into a Swap Descriptor. -/
theorem inputSwapDescriptor_calldata :
    (inputSwapDescriptor exactInputSingleHexStr).isSome = true := by
  decide

/-- C1 (code bug): the claim — and spec §4.3/§8 scenario 7 — makes a
router transaction alertable when a Swap Descriptor is decoded from its
input.  The program cannot do this: lines 73/82/91 compare the
unprefixed `input_data[:4].hex()` with the `0x`-prefixed
`HexBytes.hex()` constants of lines 56-64, which never match, so
`parse_uniswap_call` returns `None` for every input and the
swap-detected alert path is dead code (also contradicting the
function's own docstring, line 67).  Concretely: a zero-value,
non-whale transaction to a configured router carrying valid
`exactInputSingle` calldata, with `min_usd = 50000`, `min_native = 10`
and rate 2000, is alertable on the spec side via the swap disjunct, yet
the faithfully modelled program does not alert. -/
theorem evm_swap_selector_bug_demo :
    (classifyEvm ⟨[("R", "0xRR")], 50000, 10, []⟩ (some 2000)
        ⟨some "0xRR", some "0xbb", 0, some exactInputSingleHexStr⟩).alert = false ∧
    specAlertableEvm ⟨[("R", "0xRR")], 50000, 10, []⟩ (some 2000)
        ⟨some "0xRR", some "0xbb", 0, some exactInputSingleHexStr⟩ := by
  constructor
  · norm_num [classifyEvm, inputSwapDescriptorSrc_none]
  · constructor
    · simp
    · exact Or.inr (Or.inr (Or.inr (by simpa using inputSwapDescriptor_calldata)))

/- ---------------------------------------------------------------------
   C6 — absent fiat rate degrades gracefully.
   --------------------------------------------------------------------- -/

/-- C6 (amended): provided the configured fiat threshold is positive, an
absent rate (price lookup `None`, or a zero rate) makes the fiat estimate
absent, disables the fiat-threshold rule (the alert decision reduces to
whale / native / swap), and omits the fiat figure from the alert display;
processing is a total function (never a hard failure).  When a non-zero
rate is present, the estimate equals native amount × rate.  (Without the
positivity proviso the fiat rule can fire with an absent estimate, see
the counterexample.) -/
theorem evm_missing_rate_degrades (cfg : EvmChainCfg) (rate : Option ℚ) (tx : EvmTx)
    (hmin : 0 < cfg.min_usd) :
    ((rate = none ∨ rate = some 0) →
      (classifyEvm cfg rate tx).est_usd = none ∧
      (classifyEvm cfg rate tx).big_usd = false ∧
      (classifyEvm cfg rate tx).usd_shown = false ∧
      (classifyEvm cfg rate tx).alert =
        ((classifyEvm cfg rate tx).is_router &&
         ((classifyEvm cfg rate tx).is_whale || (classifyEvm cfg rate tx).big_native ||
          (classifyEvm cfg rate tx).swap_info.isSome))) ∧
    (∀ r : ℚ, rate = some r → r ≠ 0 →
      (classifyEvm cfg rate tx).est_usd =
        some ((classifyEvm cfg rate tx).value_native * r)) := by
  constructor
  · rintro (rfl | rfl) <;> simp [classifyEvm, not_le.mpr hmin]
  · rintro r rfl hne
    simp [classifyEvm, hne]

/-- C6 witness: the degradation applied at a concrete configuration with a
positive fiat threshold and an absent rate. -/
theorem evm_missing_rate_degrades_witness :
    (classifyEvm ⟨[("R", "0xAA")], 1, 10, []⟩ none
        ⟨some "0xAA", some "0xbb", 0, none⟩).est_usd = none ∧
    (classifyEvm ⟨[("R", "0xAA")], 1, 10, []⟩ none
        ⟨some "0xAA", some "0xbb", 0, none⟩).big_usd = false ∧
    (classifyEvm ⟨[("R", "0xAA")], 1, 10, []⟩ none
        ⟨some "0xAA", some "0xbb", 0, none⟩).usd_shown = false ∧
    (classifyEvm ⟨[("R", "0xAA")], 1, 10, []⟩ none
        ⟨some "0xAA", some "0xbb", 0, none⟩).alert =
      ((classifyEvm ⟨[("R", "0xAA")], 1, 10, []⟩ none
          ⟨some "0xAA", some "0xbb", 0, none⟩).is_router &&
       ((classifyEvm ⟨[("R", "0xAA")], 1, 10, []⟩ none
           ⟨some "0xAA", some "0xbb", 0, none⟩).is_whale ||
        (classifyEvm ⟨[("R", "0xAA")], 1, 10, []⟩ none
            ⟨some "0xAA", some "0xbb", 0, none⟩).big_native ||
        (classifyEvm ⟨[("R", "0xAA")], 1, 10, []⟩ none
            ⟨some "0xAA", some "0xbb", 0, none⟩).swap_info.isSome)) :=
  (evm_missing_rate_degrades ⟨[("R", "0xAA")], 1, 10, []⟩ none
    ⟨some "0xAA", some "0xbb", 0, none⟩ (by norm_num)).1 (Or.inl rfl)

/-- C6 counterexample: with `min_usd = 0` and no rate, a zero-value
non-whale router transaction with no swap content is alerted purely by
the fiat rule even though the fiat estimate is absent — contradicting the
claim that an absent rate never makes the fiat rule fire. -/
theorem evm_missing_rate_counterexample :
    (classifyEvm ⟨[("R", "0xDD")], 0, 5, []⟩ none
        ⟨some "0xDD", some "0xee", 0, none⟩).alert = true ∧
    (classifyEvm ⟨[("R", "0xDD")], 0, 5, []⟩ none
        ⟨some "0xDD", some "0xee", 0, none⟩).est_usd = none ∧
    (classifyEvm ⟨[("R", "0xDD")], 0, 5, []⟩ none
        ⟨some "0xDD", some "0xee", 0, none⟩).is_whale = false ∧
    (classifyEvm ⟨[("R", "0xDD")], 0, 5, []⟩ none
        ⟨some "0xDD", some "0xee", 0, none⟩).big_native = false ∧
    (classifyEvm ⟨[("R", "0xDD")], 0, 5, []⟩ none
        ⟨some "0xDD", some "0xee", 0, none⟩).swap_info = none := by
  have h1 : lowerStr "0xDD" = "0xdd" := by decide
  have h2 : lowerStr "0xee" = "0xee" := by decide
  have h3 : inputSwapDescriptorSrc "" = none := inputSwapDescriptorSrc_none ""
  refine ⟨?_, ?_, ?_, ?_, ?_⟩ <;> norm_num [classifyEvm, h1, h2, h3]

/- ---------------------------------------------------------------------
   C3 — sliding-window promotion.
   --------------------------------------------------------------------- -/

/-- `_reset_day_if_needed` never touches the counters. -/
theorem resetDay_counters (st : ALState) (t : String) :
    (resetDayIfNeeded st t).counters = st.counters := by
  unfold resetDayIfNeeded
  split <;> rfl

/-- One-step unfolding of `runConsider` on a cons. -/
theorem runConsider_cons (cfg : AutoLearnCfg) (today : String) (st : ALState)
    (whales : List String) (doc : ConfigDoc) (now : ℚ) (address : String)
    (est : Option ℚ) (rest : List (ℚ × String × Option ℚ)) :
    runConsider cfg today (st, whales, doc) ((now, address, est) :: rest)
      = ((runConsider cfg today
            ((consider cfg st whales doc today now address est).state,
             (consider cfg st whales doc today now address est).whales,
             (consider cfg st whales doc today now address est).config) rest).1,
         (consider cfg st whales doc today now address est).learned ::
           (runConsider cfg today
             ((consider cfg st whales doc today now address est).state,
              (consider cfg st whales doc today now address est).whales,
              (consider cfg st whales doc today now address est).config) rest).2) := rfl

/-- Part A auxiliary: starting with `acc` retained timestamps, a run of
qualifying calls whose times all lie within the window of the final time
`tk` prunes nothing and promotes exactly on the call that brings the
count to `occurrences`. -/
theorem promote_run_aux (cfg : AutoLearnCfg) (today address : String) (k : ℕ) (tk : ℚ)
    (hen : cfg.enabled = true) (hk : cfg.occurrences = (k : ℤ)) :
    ∀ (calls : List (ℚ × ℚ)) (st : ALState) (whales : List String) (doc : ConfigDoc)
      (acc : List ℚ),
      calls ≠ [] →
      alGet st.counters (lowerStr address) = acc →
      (∀ x ∈ acc, tk - x ≤ ((cfg.window_hours * 3600 : ℤ) : ℚ)) →
      (calls.map Prod.fst).getLast? = some tk →
      (∀ p ∈ calls, p.1 ≤ tk ∧ tk - p.1 ≤ ((cfg.window_hours * 3600 : ℤ) : ℚ)) →
      (∀ p ∈ calls, cfg.min_usd ≤ p.2) →
      lowerStr address ∉ whales →
      st.day = today →
      st.added_today < cfg.max_new_per_day →
      acc.length + calls.length = k →
      (runConsider cfg today (st, whales, doc)
          (calls.map fun p => (p.1, address, some p.2))).2
        = List.replicate (calls.length - 1) none ++ [some address] := by
  intro calls
  induction calls with
  | nil => intro st whales doc acc hne; exact absurd rfl hne
  | cons q rest ih =>
    obtain ⟨t, e⟩ := q
    intro st whales doc acc _ hacc haccW hlast hwithin hqual hwhale hday hquota hsum
    have ht : t ≤ tk := (hwithin (t, e) (List.mem_cons_self _ _)).1
    have hprune : pruneAppend (alGet st.counters (lowerStr address)) t
        ((cfg.window_hours * 3600 : ℤ) : ℚ) = acc ++ [t] := by
      rw [hacc]
      refine pruneAppend_no_prune _ _ _ (fun x hx => ?_)
      have := haccW x hx
      linarith
    have hcq := consider_qualifying cfg st whales doc today t address e hen hwhale
      (hqual (t, e) (List.mem_cons_self _ _))
    rw [hprune] at hcq
    simp only [resetDayIfNeeded, hday, ne_eq, not_true_eq_false, if_false] at hcq
    cases rest with
    | nil =>
      have hklen : cfg.occurrences ≤ (((acc ++ [t]).length : ℕ) : ℤ) := by
        rw [hk]
        simp only [List.length_append, List.length_cons, List.length_nil]
        simp only [List.length_cons, List.length_nil] at hsum
        omega
      rw [if_pos ⟨hklen, hquota⟩] at hcq
      simp [runConsider, hcq]
    | cons q' rest' =>
      have hnotlen : ¬ (cfg.occurrences ≤ (((acc ++ [t]).length : ℕ) : ℤ) ∧
          st.added_today < cfg.max_new_per_day) := by
        rintro ⟨hle, -⟩
        rw [hk] at hle
        simp only [List.length_append, List.length_cons, List.length_nil] at hle hsum
        omega
      rw [if_neg hnotlen] at hcq
      have ihr := ih
        ⟨alSet st.counters (lowerStr address) (acc ++ [t]), today, st.added_today⟩
        whales doc (acc ++ [t]) (by simp)
        (alGet_alSet_self _ _ _)
        (by
          intro x hx
          rcases List.mem_append.mp hx with hx' | hx'
          · exact haccW x hx'
          · have hx2 := List.mem_singleton.mp hx'
            subst hx2
            exact (hwithin (x, e) (by simp)).2)
        (by
          simp only [List.map_cons] at hlast ⊢
          rwa [List.getLast?_cons_cons] at hlast)
        (fun p hp => hwithin p (List.mem_cons_of_mem _ hp))
        (fun p hp => hqual p (List.mem_cons_of_mem _ hp))
        hwhale rfl hquota
        (by
          simp only [List.length_append, List.length_cons, List.length_nil] at hsum ⊢
          omega)
      rw [List.map_cons, runConsider_cons, hcq]
      dsimp only
      rw [ihr]
      simp [List.replicate_succ, List.cons_append]

/-- Part B auxiliary: if the source's inclusive pruning leaves the count
below `occurrences` at every qualifying call, no call promotes and the
whale set is untouched. -/
theorem nopromote_run_aux (cfg : AutoLearnCfg) (today address : String)
    (hen : cfg.enabled = true) :
    ∀ (calls : List (ℚ × ℚ)) (st : ALState) (whales : List String) (doc : ConfigDoc),
      (∀ p ∈ calls, cfg.min_usd ≤ p.2) →
      lowerStr address ∉ whales →
      (∀ n ∈ countTrace ((cfg.window_hours * 3600 : ℤ) : ℚ)
          (alGet st.counters (lowerStr address)) (calls.map Prod.fst),
        (n : ℤ) < cfg.occurrences) →
      (runConsider cfg today (st, whales, doc)
          (calls.map fun p => (p.1, address, some p.2))).2
        = List.replicate calls.length none ∧
      (runConsider cfg today (st, whales, doc)
          (calls.map fun p => (p.1, address, some p.2))).1.2.1 = whales := by
  intro calls
  induction calls with
  | nil => intro st whales doc _ _ _; exact ⟨rfl, rfl⟩
  | cons q rest ih =>
    obtain ⟨t, e⟩ := q
    intro st whales doc hqual hwhale hcount
    have hcq := consider_qualifying cfg st whales doc today t address e hen hwhale
      (hqual (t, e) (List.mem_cons_self _ _))
    simp only at hcq
    have hct : countTrace ((cfg.window_hours * 3600 : ℤ) : ℚ)
        (alGet st.counters (lowerStr address)) (((t, e) :: rest).map Prod.fst)
        = (pruneAppend (alGet st.counters (lowerStr address)) t
            ((cfg.window_hours * 3600 : ℤ) : ℚ)).length ::
          countTrace ((cfg.window_hours * 3600 : ℤ) : ℚ)
            (pruneAppend (alGet st.counters (lowerStr address)) t
              ((cfg.window_hours * 3600 : ℤ) : ℚ)) (rest.map Prod.fst) := by
      simp [countTrace]
    have hhead : ((pruneAppend (alGet st.counters (lowerStr address)) t
        ((cfg.window_hours * 3600 : ℤ) : ℚ)).length : ℤ) < cfg.occurrences := by
      apply hcount
      rw [hct]
      exact List.mem_cons_self _ _
    rw [if_neg (fun hco => absurd hco.1 (not_le.mpr hhead))] at hcq
    have ihr := ih (resetDayIfNeeded
        ⟨alSet st.counters (lowerStr address)
          (pruneAppend (alGet st.counters (lowerStr address)) t
            ((cfg.window_hours * 3600 : ℤ) : ℚ)),
         st.day, st.added_today⟩ today)
      whales doc
      (fun p hp => hqual p (List.mem_cons_of_mem _ hp))
      hwhale
      (by
        intro n hn
        apply hcount
        rw [hct]
        apply List.mem_cons_of_mem
        rwa [resetDay_counters, alGet_alSet_self] at hn)
    rw [List.map_cons, runConsider_cons, hcq]
    dsimp only
    exact ⟨by rw [List.length_cons, List.replicate_succ, ihr.1], ihr.2⟩

/-- C3 (amended): the source's sliding window is INCLUSIVE — a timestamp
is retained exactly when its age is at most the window (`now - t <=
window`), so an event exactly window-old still counts.  (a) `k` qualifying
calls for a fresh address, all of whose timestamps lie within the window
of the `k`-th (final) call, with the daily quota open, promote the address
exactly on the `k`-th call; (b) if the inclusively-pruned count stays
below `k` at every call, no promotion occurs and the whale set is
unchanged.  The claim's parenthetical strict-window reading ("only events
strictly within W") is refuted by the boundary counterexample. -/
theorem consider_window_promotion :
    (∀ (cfg : AutoLearnCfg) (st : ALState) (whales : List String) (doc : ConfigDoc)
       (today address : String) (k : ℕ) (calls : List (ℚ × ℚ)) (tk : ℚ),
       cfg.enabled = true →
       cfg.occurrences = (k : ℤ) →
       calls.length = k →
       calls ≠ [] →
       (calls.map Prod.fst).getLast? = some tk →
       (∀ p ∈ calls, p.1 ≤ tk ∧ tk - p.1 ≤ ((cfg.window_hours * 3600 : ℤ) : ℚ)) →
       (∀ p ∈ calls, cfg.min_usd ≤ p.2) →
       lowerStr address ∉ whales →
       alGet st.counters (lowerStr address) = [] →
       st.day = today →
       st.added_today < cfg.max_new_per_day →
       (runConsider cfg today (st, whales, doc)
           (calls.map fun p => (p.1, address, some p.2))).2
         = List.replicate (k - 1) none ++ [some address]) ∧
    (∀ (cfg : AutoLearnCfg) (st : ALState) (whales : List String) (doc : ConfigDoc)
       (today address : String) (calls : List (ℚ × ℚ)),
       cfg.enabled = true →
       (∀ p ∈ calls, cfg.min_usd ≤ p.2) →
       lowerStr address ∉ whales →
       (∀ n ∈ countTrace ((cfg.window_hours * 3600 : ℤ) : ℚ)
           (alGet st.counters (lowerStr address)) (calls.map Prod.fst),
         (n : ℤ) < cfg.occurrences) →
       (runConsider cfg today (st, whales, doc)
           (calls.map fun p => (p.1, address, some p.2))).2
         = List.replicate calls.length none ∧
       (runConsider cfg today (st, whales, doc)
           (calls.map fun p => (p.1, address, some p.2))).1.2.1 = whales) := by
  constructor
  · intro cfg st whales doc today address k calls tk hen hk hlen hne hlast hwithin hqual
      hwhale hcnt hday hquota
    have h := promote_run_aux cfg today address k tk hen hk calls st whales doc []
      hne hcnt (by simp) hlast hwithin hqual hwhale hday hquota (by simp [hlen])
    rw [h, hlen]
  · intro cfg st whales doc today address calls hen hqual hwhale hcount
    exact nopromote_run_aux cfg today address hen calls st whales doc hqual hwhale hcount

/-- C3 witness: with `occurrences = 2` and a 1-hour window, two qualifying
calls 10 seconds apart promote on the second; with `occurrences = 5`, a
single qualifying call (count 1) promotes nothing. -/
theorem consider_window_promotion_witness :
    (runConsider ⟨true, 100, 2, 1, 5, false⟩ "d" (⟨[], "d", 0⟩, [], ⟨[], []⟩)
        ([((0 : ℚ), (500 : ℚ)), (10, 500)].map fun p => (p.1, "0xw", some p.2))).2
      = [none, some "0xw"] ∧
    (runConsider ⟨true, 100, 5, 1, 5, false⟩ "d" (⟨[], "d", 0⟩, [], ⟨[], []⟩)
        ([((0 : ℚ), (500 : ℚ))].map fun p => (p.1, "0xz", some p.2))).2
      = [none] := by
  constructor
  · have h := (consider_window_promotion).1 ⟨true, 100, 2, 1, 5, false⟩ ⟨[], "d", 0⟩ []
      ⟨[], []⟩ "d" "0xw" 2 [(0, 500), (10, 500)] 10 rfl (by norm_num) (by simp)
      (by simp) (by simp)
      (by intro p hp; simp at hp; rcases hp with rfl | rfl <;> constructor <;> norm_num)
      (by intro p hp; simp at hp; rcases hp with rfl | rfl <;> norm_num)
      (by simp) rfl rfl (by norm_num)
    simpa using h
  · have h := (consider_window_promotion).2 ⟨true, 100, 5, 1, 5, false⟩ ⟨[], "d", 0⟩ []
      ⟨[], []⟩ "d" "0xz" [(0, 500)] rfl
      (by intro p hp; simp at hp; subst hp; norm_num)
      (by simp)
      (by
        intro n hn
        norm_num [countTrace, pruneAppend, alGet] at hn
        subst hn
        norm_num)
    simpa using h.1

/-- C3 counterexample (to the claim's strict-window reading): with
`occurrences = 2` and a 1-hour window, qualifying events at times 0 and
3600 for a fresh address.  Counting only events strictly within the
window leaves fewer than 2 entries at every call (the first event is
exactly window-old at the second call), so the claim says no promotion —
yet the code's inclusive pruning (`now - t <= window`) retains the
boundary event and promotes on the second call. -/
theorem consider_strict_window_counterexample :
    strictCountTrace ((1 * 3600 : ℤ) : ℚ) [] [0, 3600] = [1, 1] ∧
    (runConsider ⟨true, 100, 2, 1, 5, false⟩ "d" (⟨[], "d", 0⟩, [], ⟨[], []⟩)
        [(0, "0xw", some 100), (3600, "0xw", some 100)]).2 = [none, some "0xw"] := by
  have hlow : lowerStr "0xw" = "0xw" := by decide
  constructor
  · norm_num [strictCountTrace, strictPruneAppend]
  · norm_num [runConsider, consider, hlow, alGet, alSet, pruneAppend, resetDayIfNeeded]

/- ---------------------------------------------------------------------
   C10 — shape of items yielded by the EVM subscription.
   --------------------------------------------------------------------- -/

/-- C10 (amended): every item the EVM subscription loop yields is a string
starting with `0x` of exactly 66 characters.  An object message that is
not an `eth_subscription`, and an `eth_subscription` whose `params` is an
object (or missing, defaulting to `{}`) whose `result` is not a string of
that shape, is silently dropped (`ok none`: the receive loop just
continues).  However — contrary to the claim's "silently dropped" for
every malformed message — a message whose `params` field is present but
not an object makes `params.get` raise, which tears the connection down
and reconnects (`error ()`).  In every case, nothing non-conforming is
yielded to the watch loop. -/
theorem evm_sub_yield_shape (msg : Jv) :
    (∀ s, evmSubExtract msg = Except.ok (some s) →
      startsWith0x s = true ∧ s.length = 66) ∧
    (∀ kvs, msg = Jv.jobj kvs →
      dictGet kvs "method" ≠ some (Jv.jstr "eth_subscription") →
      evmSubExtract msg = Except.ok none) ∧
    (∀ kvs pkvs, msg = Jv.jobj kvs →
      dictGet kvs "method" = some (Jv.jstr "eth_subscription") →
      (dictGet kvs "params").getD (Jv.jobj []) = Jv.jobj pkvs →
      (∀ s, dictGet pkvs "result" = some (Jv.jstr s) →
        ¬(startsWith0x s = true ∧ s.length = 66)) →
      evmSubExtract msg = Except.ok none) ∧
    (∀ kvs j, msg = Jv.jobj kvs →
      dictGet kvs "method" = some (Jv.jstr "eth_subscription") →
      dictGet kvs "params" = some j → (∀ pkvs, j ≠ Jv.jobj pkvs) →
      evmSubExtract msg = Except.error ()) := by
  refine ⟨?_, ?_, ?_, ?_⟩
  · intro s h
    unfold evmSubExtract at h
    split at h
    · split at h
      · split at h
        · split at h
          · split at h
            · split at h
              · next hshape =>
                cases h
                exact hshape
              · cases h
            · cases h
          · cases h
        · cases h
      · cases h
    · cases h
  · intro kvs hmsg hne
    subst hmsg
    unfold evmSubExtract
    rcases hmM : dictGet kvs "method" with _ | j
    · simp [hmM]
    · cases j with
      | jstr s =>
        simp only [hmM]
        rw [if_neg (fun hs => hne (by rw [hmM, hs]))]
      | jnull => simp [hmM]
      | jbool b => simp [hmM]
      | jint n => simp [hmM]
      | jnum q => simp [hmM]
      | jarr xs => simp [hmM]
      | jobj fl => simp [hmM]
  · intro kvs pkvs hmsg hm hp hres
    subst hmsg
    unfold evmSubExtract
    simp only [hm]
    simp only [if_true]
    simp only [hp]
    rcases hR : dictGet pkvs "result" with _ | j
    · simp [hR]
    · cases j with
      | jstr s =>
        simp only [hR]
        rw [if_neg (hres s hR)]
      | jnull => simp [hR]
      | jbool b => simp [hR]
      | jint n => simp [hR]
      | jnum q => simp [hR]
      | jarr xs => simp [hR]
      | jobj fl => simp [hR]
  · intro kvs j hmsg hm hp hnotobj
    subst hmsg
    cases j with
    | jobj pkvs => exact absurd rfl (hnotobj pkvs)
    | jnull => unfold evmSubExtract; simp [hm, hp]
    | jbool b => unfold evmSubExtract; simp [hm, hp]
    | jint n => unfold evmSubExtract; simp [hm, hp]
    | jnum q => unfold evmSubExtract; simp [hm, hp]
    | jstr s => unfold evmSubExtract; simp [hm, hp]
    | jarr xs => unfold evmSubExtract; simp [hm, hp]

/-- C10 witness: a well-formed `eth_subscription` carrying a 66-character
`0x`-prefixed hash is yielded, and the theorem certifies its shape. -/
theorem evm_sub_yield_shape_witness :
    startsWith0x "0x0000000000000000000000000000000000000000000000000000000000000000" = true ∧
    ("0x0000000000000000000000000000000000000000000000000000000000000000" : String).length
      = 66 :=
  (evm_sub_yield_shape (Jv.jobj [("method", Jv.jstr "eth_subscription"),
      ("params", Jv.jobj [("result",
        Jv.jstr "0x0000000000000000000000000000000000000000000000000000000000000000")])])).1
    "0x0000000000000000000000000000000000000000000000000000000000000000" (by rfl)

/-- C10 counterexample: an `eth_subscription` whose `params` is the number
`5` is NOT silently dropped as the claim states: `params.get("result")`
raises, the model returns `error ()` (connection teardown + reconnect),
which is distinct from the silent-drop outcome `ok none`. -/
theorem evm_sub_params_error_counterexample :
    evmSubExtract (Jv.jobj [("method", Jv.jstr "eth_subscription"), ("params", Jv.jint 5)])
      = Except.error () ∧
    (Except.error () : Except Unit (Option String)) ≠ Except.ok none := by
  constructor
  · rfl
  · intro h
    cases h
